import Mathlib

/-!
Verification of the droid-patch binary patching engine (`patchDroid` and
`findAllPositions`) against its specification.  Byte buffers are modelled as
`List Nat` and the filesystem as an association list from paths to contents,
with a separate record of paths whose executable bit has been set.
-/

/-- Exact byte-for-byte match of `pattern` at offset `pos` of `buffer` (the
comparison performed by `Buffer.indexOf` in the source). -/
def matchesAt (buffer pattern : List Nat) (pos : Nat) : Bool :=
  (buffer.drop pos).take pattern.length == pattern

/-- Model of `buffer.indexOf(pattern, start)` as used inside the source's
`findAllPositions` loop: the least offset `p ≥ start` at which `pattern`
occurs, or `none` for the sentinel `-1`.  Following Node semantics, an empty
pattern is reported at `min start buffer.length`. -/
def indexOfFrom (buffer pattern : List Nat) (start : Nat) : Option Nat :=
  if pattern.isEmpty then some (min start buffer.length)
  else (List.range (buffer.length + 1)).find?
    (fun p => decide (start ≤ p) && matchesAt buffer pattern p)

/-- Fuel-indexed unfolding of the `while (true)` loop of the source's
`findAllPositions`: `pos = buffer.indexOf(pattern, pos); if (pos === -1)
break; positions.push(pos); pos += pattern.length;`. -/
def findAllPositionsAux (buffer pattern : List Nat) : Nat → Nat → List Nat
  | 0, _ => []
  | fuel + 1, pos =>
    match indexOfFrom buffer pattern pos with
    | none => []
    | some p => p :: findAllPositionsAux buffer pattern fuel (p + pattern.length)

/-- `findAllPositions(buffer, pattern)` from the source.  For a non-empty
pattern, fuel `buffer.length + 1` is enough for the loop to run to
completion (this is proved below as fuel-independence). -/
def findAllPositions (buffer pattern : List Nat) : List Nat :=
  findAllPositionsAux buffer pattern (buffer.length + 1) 0

/-- A patch record as built by the CLI layer: named pattern/replacement pair. -/
structure Patch where
  name : String
  description : String
  pattern : List Nat
  replacement : List Nat
deriving DecidableEq, Repr

/-- Per-patch result record pushed onto `results` in `patchDroid`.  In the
source, a result for a not-found pattern has no `positions` key; this is
modelled as the empty list. -/
structure PatchResult where
  name : String
  found : Nat
  positions : List Nat
  success : Bool
  alreadyPatched : Bool
deriving DecidableEq, Repr

/-- The scanning step of `patchDroid`'s per-patch loop (source lines 52-92):
find all pattern positions; on zero occurrences, fall back to scanning for
the replacement and flag `alreadyPatched` accordingly. -/
def checkPatch (buffer : List Nat) (patch : Patch) : PatchResult :=
  let positions := findAllPositions buffer patch.pattern
  if positions.length = 0 then
    let base : PatchResult :=
      { name := patch.name, found := 0, positions := [], success := false,
        alreadyPatched := (indexOfFrom buffer patch.replacement 0).isSome }
    let replacementPositions := findAllPositions buffer patch.replacement
    if replacementPositions.length > 0 then
      { base with alreadyPatched := true, success := true }
    else base
  else
    { name := patch.name, found := positions.length, positions := positions,
      success := true, alreadyPatched := false }

/-- `patch.replacement.copy(patchedBuffer, pos)`: Node's `Buffer.copy` writes
`min(repl.length, buf.length - pos)` bytes starting at `pos` and never
resizes the target buffer. -/
def writeAt (buf : List Nat) (pos : Nat) (repl : List Nat) : List Nat :=
  buf.take pos ++ repl.take (buf.length - pos) ++ buf.drop (pos + repl.length)

/-- The inner position loop of the apply step (source lines 158-161). -/
def applyPositions (repl : List Nat) (positions : List Nat) (buf : List Nat) : List Nat :=
  positions.foldl (fun b pos => writeAt b pos repl) buf

/-- The apply step of `patchDroid` (source lines 153-162): for each patch,
look its result up by name and overwrite every recorded position with the
replacement bytes. -/
def applyAll (buffer : List Nat) (patches : List Patch) (results : List PatchResult) : List Nat :=
  patches.foldl (fun b patch =>
    match results.find? (fun r => r.name == patch.name) with
    | none => b
    | some r => applyPositions patch.replacement r.positions b) buffer

/-- `totalPatched` accumulated by the apply step. -/
def countPatched (patches : List Patch) (results : List PatchResult) : Nat :=
  patches.foldl (fun n patch =>
    match results.find? (fun r => r.name == patch.name) with
    | none => n
    | some r => n + r.positions.length) 0

/-- Abstract filesystem: path-to-content map plus the set of paths whose
executable permission has been set by `chmod`. -/
structure FS where
  files : List (String × List Nat)
  exec : List String
deriving DecidableEq, Repr

def FS.getFile (fs : FS) (path : String) : Option (List Nat) :=
  (fs.files.find? (fun kv => kv.1 == path)).map Prod.snd

def FS.hasFile (fs : FS) (path : String) : Bool :=
  (fs.getFile path).isSome

def FS.setFile (fs : FS) (path : String) (content : List Nat) : FS :=
  { fs with files := (path, content) :: fs.files.filter (fun kv => !(kv.1 == path)) }

def FS.chmodExec (fs : FS) (path : String) : FS :=
  { fs with exec := path :: fs.exec }

/-- Options of `patchDroid` (its destructured argument object). -/
structure PatchOptions where
  inputPath : String
  outputPath : Option String
  patches : List Patch
  dryRun : Bool
  backup : Bool
  verbose : Bool
deriving DecidableEq, Repr

/-- Aggregate run result.  Keys the source leaves absent on a given return
path are modelled as `false` / `none` / `0`. -/
structure PatchRunResult where
  success : Bool
  dryRun : Bool
  outputPath : Option String
  results : List PatchResult
  noPatchNeeded : Bool
  patchedCount : Nat
deriving DecidableEq, Repr

/-- The engine `patchDroid` (source lines 16-211) as a function from a
filesystem state to a thrown error or a run result, together with the
filesystem state after the call. -/
def patchDroid (fs : FS) (opts : PatchOptions) : Except String PatchRunResult × FS :=
  let finalOutputPath := opts.outputPath.getD (opts.inputPath ++ ".patched")
  if !(fs.hasFile opts.inputPath) then
    (Except.error ("Binary not found: " ++ opts.inputPath), fs)
  else
    let buffer := (fs.getFile opts.inputPath).getD []
    let results := opts.patches.map (checkPatch buffer)
    if opts.dryRun then
      (Except.ok { success := results.all (fun r => r.success || r.alreadyPatched),
                   dryRun := true, outputPath := none, results := results,
                   noPatchNeeded := false, patchedCount := 0 }, fs)
    else
      let patchesNeeded := results.filter (fun r => decide (0 < r.found) && !r.alreadyPatched)
      if patchesNeeded.isEmpty then
        if results.all (fun r => r.alreadyPatched) then
          (Except.ok { success := true, dryRun := false, outputPath := some opts.inputPath,
                       results := results, noPatchNeeded := true, patchedCount := 0 }, fs)
        else
          (Except.ok { success := false, dryRun := false, outputPath := none,
                       results := results, noPatchNeeded := false, patchedCount := 0 }, fs)
      else
        let backupPath := opts.inputPath ++ ".backup"
        let fs1 :=
          if opts.backup && !(fs.hasFile backupPath) then fs.setFile backupPath buffer else fs
        let patchedBuffer := applyAll buffer opts.patches results
        let totalPatched := countPatched opts.patches results
        let fs2 := (fs1.setFile finalOutputPath patchedBuffer).chmodExec finalOutputPath
        let verifyBuffer := (fs2.getFile finalOutputPath).getD []
        let allVerified := opts.patches.all
          (fun p => (findAllPositions verifyBuffer p.pattern).length == 0)
        (Except.ok { success := allVerified, dryRun := false,
                     outputPath := some finalOutputPath, results := results,
                     noPatchNeeded := false, patchedCount := totalPatched }, fs2)

/-- ASCII byte view of a string, used to state the spec's concrete scenario. -/
def strToBytes (s : String) : List Nat :=
  s.data.map Char.toNat

/-- Two half-open spans `[a.1, a.1 + a.2)` and `[b.1, b.1 + b.2)` are disjoint. -/
def spanDisjoint (a b : Nat × Nat) : Prop :=
  a.1 + a.2 ≤ b.1 ∨ b.1 + b.2 ≤ a.1

instance : DecidableRel spanDisjoint := fun a b => by
  unfold spanDisjoint; infer_instance

/-- The recorded pattern occurrences of a patch list in a buffer, as
(position, pattern length) spans. -/
def occs (buffer : List Nat) (patches : List Patch) : List (Nat × Nat) :=
  patches.flatMap (fun p => (findAllPositions buffer p.pattern).map
    (fun pos => (pos, p.pattern.length)))

/-- The sequence of (position, replacement) writes that the apply step
performs when every patch's result is its own `checkPatch` record. -/
def recordedWrites (buffer : List Nat) (patches : List Patch) : List (Nat × List Nat) :=
  patches.flatMap (fun p => (findAllPositions buffer p.pattern).map
    (fun pos => (pos, p.replacement)))

/-- Folding `writeAt` over an explicit write list. -/
def applyWrites (ws : List (Nat × List Nat)) (buf : List Nat) : List Nat :=
  ws.foldl (fun b w => writeAt b w.1 w.2) buf

/-- The write list actually traversed by `applyAll` (name-based lookup). -/
def writesPlan (patches : List Patch) (results : List PatchResult) : List (Nat × List Nat) :=
  patches.flatMap (fun patch =>
    match results.find? (fun r => r.name == patch.name) with
    | none => []
    | some r => r.positions.map (fun pos => (pos, patch.replacement)))

/-- The spec's concrete scenario patch: `isCustom:!0` to `isCustom:!1`. -/
def exPatch : Patch :=
  ⟨"isCustom", "flip isCustom flag", strToBytes "isCustom:!0", strToBytes "isCustom:!1"⟩

/-- The spec's concrete scenario input buffer. -/
def exBuffer : List Nat := strToBytes "xxisCustom:!0yyisCustom:!0zz"

/-- Filesystem holding the scenario input at path `droid`. -/
def exFS : FS := ⟨[("droid", exBuffer)], []⟩

/-- Live-mode options for the scenario. -/
def exOpts : PatchOptions := ⟨"droid", none, [exPatch], false, true, false⟩

/-- Dry-run options for the scenario. -/
def exDryOpts : PatchOptions := ⟨"droid", none, [exPatch], true, true, false⟩

/-- Filesystem holding an already-patched scenario buffer. -/
def exPatchedFS : FS := ⟨[("droid", strToBytes "xxisCustom:!1yyisCustom:!1zz")], []⟩

/-- Two patches sharing one name: occurrences at 0 and 2 of `[1,2,3,4]`. -/
def dupPatchA : Patch := ⟨"a", "first", [1, 2], [5, 6]⟩

/-- Second patch with the same name as `dupPatchA`. -/
def dupPatchB : Patch := ⟨"a", "second", [3, 4], [7, 8]⟩

/-- Filesystem for the duplicate-name run. -/
def dupFS : FS := ⟨[("in", [1, 2, 3, 4])], []⟩

/-- Live-mode options for the duplicate-name run. -/
def dupOpts : PatchOptions := ⟨"in", none, [dupPatchA, dupPatchB], false, false, false⟩

/-- Filesystem where a backup already exists at `in.backup` with content `[9]`. -/
def bkFS : FS := ⟨[("in", [1]), ("in.backup", [9])], []⟩

/-- Options directing the output at the existing backup path. -/
def bkOpts : PatchOptions := ⟨"in", some "in.backup", [⟨"p", "", [1], [2]⟩], false, true, false⟩

/-- A patch whose replacement is longer than its pattern. -/
def unevenPatch : Patch := ⟨"u", "grow", [2], [9, 9]⟩

/-- Filesystem for the unequal-length run. -/
def unevenFS : FS := ⟨[("in", [1, 2, 3])], []⟩

/-- Live-mode options for the unequal-length run. -/
def unevenOpts : PatchOptions := ⟨"in", none, [unevenPatch], false, false, false⟩

/-- The empty filesystem. -/
def emptyFS : FS := ⟨[], []⟩

theorem matchesAt_iff {buffer pattern : List Nat} {pos : Nat} :
    matchesAt buffer pattern pos = true ↔ (buffer.drop pos).take pattern.length = pattern := by
  simp [matchesAt]

theorem matchesAt_bound {buffer pattern : List Nat} {pos : Nat}
    (hne : pattern ≠ []) (h : matchesAt buffer pattern pos = true) :
    pos + pattern.length ≤ buffer.length := by
  have hlen := congrArg List.length (matchesAt_iff.mp h)
  simp only [List.length_take, List.length_drop] at hlen
  have hpos : 0 < pattern.length := List.length_pos.mpr hne
  omega

theorem indexOfFrom_none_of_lt {buffer pattern : List Nat} {start : Nat}
    (hne : pattern ≠ []) (h : buffer.length < start) :
    indexOfFrom buffer pattern start = none := by
  unfold indexOfFrom
  rw [if_neg (by simpa using hne)]
  apply List.find?_eq_none.mpr
  intro p hp
  simp only [List.mem_range] at hp
  simp only [Bool.and_eq_true, decide_eq_true_eq, not_and]
  intro hsp
  exact absurd hsp (by omega)

theorem find?_min_of_pairwise {f : Nat → Bool} :
    ∀ {l : List Nat}, l.Pairwise (· < ·) → ∀ {p : Nat}, l.find? f = some p →
      ∀ q ∈ l, q < p → f q = false := by
  intro l
  induction l with
  | nil => intro _ p h; simp at h
  | cons a t ih =>
    intro hpw p hf q hq hqp
    rcases List.pairwise_cons.mp hpw with ⟨hat, htp⟩
    cases ha : f a with
    | true =>
      rw [List.find?_cons_of_pos _ ha] at hf
      injection hf with hf
      subst hf
      rcases List.mem_cons.mp hq with rfl | hq
      · exact absurd hqp (by omega)
      · exact absurd hqp (by have := hat q hq; omega)
    | false =>
      rw [List.find?_cons_of_neg _ (by simp [ha])] at hf
      rcases List.mem_cons.mp hq with rfl | hq
      · exact ha
      · exact ih htp hf q hq hqp

theorem indexOfFrom_spec {buffer pattern : List Nat} {start p : Nat}
    (hne : pattern ≠ []) (h : indexOfFrom buffer pattern start = some p) :
    start ≤ p ∧ matchesAt buffer pattern p = true ∧
      ∀ q, start ≤ q → matchesAt buffer pattern q = true → p ≤ q := by
  unfold indexOfFrom at h
  rw [if_neg (by simpa using hne)] at h
  have h1 := List.find?_some h
  simp only [Bool.and_eq_true, decide_eq_true_eq] at h1
  refine ⟨h1.1, h1.2, ?_⟩
  intro q hsq hq
  by_contra hlt
  push_neg at hlt
  have hplen : 0 < pattern.length := List.length_pos.mpr hne
  have hqmem : q ∈ List.range (buffer.length + 1) := by
    simp only [List.mem_range]
    have := matchesAt_bound hne hq
    omega
  have hmin := find?_min_of_pairwise (List.pairwise_lt_range _) h q hqmem hlt
  simp [hsq, hq] at hmin

theorem indexOfFrom_isSome {buffer pattern : List Nat} {start q : Nat}
    (hne : pattern ≠ []) (hq : matchesAt buffer pattern q = true) (hsq : start ≤ q) :
    ∃ p, indexOfFrom buffer pattern start = some p ∧ p ≤ q := by
  cases hfind : indexOfFrom buffer pattern start with
  | none =>
    exfalso
    unfold indexOfFrom at hfind
    rw [if_neg (by simpa using hne)] at hfind
    have hplen : 0 < pattern.length := List.length_pos.mpr hne
    have hmem : q ∈ List.range (buffer.length + 1) := by
      simp only [List.mem_range]
      have := matchesAt_bound hne hq
      omega
    have := List.find?_eq_none.mp hfind q hmem
    simp [hsq, hq] at this
  | some p =>
    exact ⟨p, rfl, (indexOfFrom_spec hne hfind).2.2 q hsq hq⟩

theorem findAllPositionsAux_spec {buffer pattern : List Nat} (hne : pattern ≠ []) :
    ∀ fuel pos : Nat, buffer.length + 1 ≤ fuel + pos →
      (∀ p ∈ findAllPositionsAux buffer pattern fuel pos,
          pos ≤ p ∧ matchesAt buffer pattern p = true) ∧
      List.Chain' (fun a b => a + pattern.length ≤ b)
        (findAllPositionsAux buffer pattern fuel pos) ∧
      (∀ q, pos ≤ q → matchesAt buffer pattern q = true →
          ∃ p ∈ findAllPositionsAux buffer pattern fuel pos,
            p ≤ q ∧ q < p + pattern.length) := by
  intro fuel
  induction fuel with
  | zero =>
    intro pos hbound
    refine ⟨by simp [findAllPositionsAux], by simp [findAllPositionsAux], ?_⟩
    intro q hq hmq
    exfalso
    have := matchesAt_bound hne hmq
    have : 0 < pattern.length := List.length_pos.mpr hne
    omega
  | succ fuel ih =>
    intro pos hbound
    cases hfind : indexOfFrom buffer pattern pos with
    | none =>
      refine ⟨by simp [findAllPositionsAux, hfind], by simp [findAllPositionsAux, hfind], ?_⟩
      intro q hq hmq
      obtain ⟨p, hp, _⟩ := indexOfFrom_isSome hne hmq hq
      rw [hfind] at hp
      cases hp
    | some p =>
      obtain ⟨hsp, hmp, hmin⟩ := indexOfFrom_spec hne hfind
      have hplen : 0 < pattern.length := List.length_pos.mpr hne
      have hpb := matchesAt_bound hne hmp
      obtain ⟨iha, ihb, ihc⟩ := ih (p + pattern.length) (by omega)
      simp only [findAllPositionsAux, hfind]
      refine ⟨?_, ?_, ?_⟩
      · intro x hx
        rcases List.mem_cons.mp hx with rfl | hx
        · exact ⟨hsp, hmp⟩
        · obtain ⟨h1, h2⟩ := iha x hx
          exact ⟨by omega, h2⟩
      · refine List.chain'_cons'.mpr ⟨?_, ihb⟩
        intro y hy
        have hym := List.mem_of_mem_head? hy
        exact (iha y hym).1
      · intro q hq hmq
        have hpq : p ≤ q := hmin q hq hmq
        by_cases hcov : q < p + pattern.length
        · exact ⟨p, List.mem_cons_self _ _, hpq, hcov⟩
        · push_neg at hcov
          obtain ⟨x, hx, h1, h2⟩ := ihc q hcov hmq
          exact ⟨x, List.mem_cons_of_mem _ hx, h1, h2⟩

theorem findAllPositionsAux_fuel_indep {buffer pattern : List Nat} (hne : pattern ≠ []) :
    ∀ fuel fuel' pos : Nat, buffer.length + 1 ≤ fuel + pos →
      buffer.length + 1 ≤ fuel' + pos →
      findAllPositionsAux buffer pattern fuel pos = findAllPositionsAux buffer pattern fuel' pos := by
  intro fuel
  induction fuel with
  | zero =>
    intro fuel' pos hb hb'
    have hlt : buffer.length < pos := by omega
    cases fuel' with
    | zero => rfl
    | succ fuel' =>
      simp [findAllPositionsAux, indexOfFrom_none_of_lt hne hlt]
  | succ fuel ih =>
    intro fuel' pos hb hb'
    by_cases hpos : buffer.length < pos
    · cases fuel' with
      | zero => simp [findAllPositionsAux, indexOfFrom_none_of_lt hne hpos]
      | succ fuel' => simp [findAllPositionsAux, indexOfFrom_none_of_lt hne hpos]
    · push_neg at hpos
      cases fuel' with
      | zero => omega
      | succ fuel' =>
        cases hfind : indexOfFrom buffer pattern pos with
        | none => simp [findAllPositionsAux, hfind]
        | some p =>
          obtain ⟨hsp, hmp, _⟩ := indexOfFrom_spec hne hfind
          have hplen : 0 < pattern.length := List.length_pos.mpr hne
          simp only [findAllPositionsAux, hfind]
          rw [ih fuel' (p + pattern.length) (by omega) (by omega)]

theorem writeAt_length (buf : List Nat) (pos : Nat) (repl : List Nat) :
    (writeAt buf pos repl).length = buf.length := by
  simp only [writeAt, List.length_append, List.length_take, List.length_drop]
  omega

theorem writeAt_getElem?_lt {buf : List Nat} {pos i : Nat} (repl : List Nat) (h : i < pos) :
    (writeAt buf pos repl)[i]? = buf[i]? := by
  by_cases hib : i < buf.length
  · unfold writeAt
    rw [List.append_assoc,
      List.getElem?_append_left (by simp only [List.length_take]; omega),
      List.getElem?_take]
    simp [h]
  · rw [List.getElem?_eq_none (by rw [writeAt_length]; omega),
      List.getElem?_eq_none (by omega)]

theorem writeAt_getElem?_ge {buf : List Nat} {pos i : Nat} {repl : List Nat}
    (h : pos + repl.length ≤ i) :
    (writeAt buf pos repl)[i]? = buf[i]? := by
  by_cases hib : i < buf.length
  · have htl : (buf.take pos).length = pos := by
      simp only [List.length_take]; omega
    have hml : (repl.take (buf.length - pos)).length = repl.length := by
      simp only [List.length_take]; omega
    unfold writeAt
    rw [List.append_assoc,
      List.getElem?_append_right (by omega),
      List.getElem?_append_right (by omega),
      htl, hml, List.getElem?_drop]
    congr 1
    omega
  · rw [List.getElem?_eq_none (by rw [writeAt_length]; omega),
      List.getElem?_eq_none (by omega)]

theorem writeAt_getElem?_mid {buf : List Nat} {pos i : Nat} {repl : List Nat}
    (h1 : pos ≤ i) (h2 : i < pos + repl.length) (h3 : pos + repl.length ≤ buf.length) :
    (writeAt buf pos repl)[i]? = repl[i - pos]? := by
  have htl : (buf.take pos).length = pos := by
    simp only [List.length_take]; omega
  have hmid : repl.take (buf.length - pos) = repl :=
    List.take_of_length_le (by omega)
  unfold writeAt
  rw [List.append_assoc,
    List.getElem?_append_right (by omega), htl, hmid,
    List.getElem?_append_left (by omega)]

theorem checkPatch_name (buffer : List Nat) (patch : Patch) :
    (checkPatch buffer patch).name = patch.name := by
  simp only [checkPatch]
  split
  · split <;> rfl
  · rfl

theorem checkPatch_positions (buffer : List Nat) (patch : Patch) :
    (checkPatch buffer patch).positions = findAllPositions buffer patch.pattern := by
  simp only [checkPatch]
  split
  · rename_i h
    have hnil : findAllPositions buffer patch.pattern = [] := List.length_eq_zero.mp h
    rw [hnil]
    split <;> rfl
  · rfl

theorem find?_checkPatch_of_nodup (buffer : List Nat) :
    ∀ (patches : List Patch) (patch : Patch), patch ∈ patches →
      (patches.map Patch.name).Nodup →
      (patches.map (checkPatch buffer)).find? (fun r => r.name == patch.name)
        = some (checkPatch buffer patch) := by
  intro patches
  induction patches with
  | nil => intro patch h; simp at h
  | cons q t ih =>
    intro patch hmem hnd
    simp only [List.map_cons, List.nodup_cons] at hnd
    obtain ⟨hq, hnd'⟩ := hnd
    rcases List.mem_cons.mp hmem with rfl | hmem'
    · rw [List.map_cons, List.find?_cons_of_pos _ (by simp [checkPatch_name])]
    · have hqname : q.name ≠ patch.name := by
        intro heq
        exact hq (heq ▸ List.mem_map_of_mem Patch.name hmem')
      rw [List.map_cons, List.find?_cons_of_neg _ (by simp [checkPatch_name, hqname])]
      exact ih patch hmem' hnd'

theorem applyAll_cons (buffer : List Nat) (p : Patch) (t : List Patch)
    (results : List PatchResult) :
    applyAll buffer (p :: t) results =
      applyAll (match results.find? (fun r => r.name == p.name) with
        | none => buffer
        | some r => applyPositions p.replacement r.positions buffer) t results := rfl

theorem writesPlan_cons (p : Patch) (t : List Patch) (results : List PatchResult) :
    writesPlan (p :: t) results =
      (match results.find? (fun r => r.name == p.name) with
        | none => []
        | some r => r.positions.map (fun pos => (pos, p.replacement))) ++ writesPlan t results := by
  simp only [writesPlan, List.flatMap_cons]

theorem applyPositions_eq_applyWrites (repl : List Nat) (positions : List Nat) (buf : List Nat) :
    applyPositions repl positions buf =
      applyWrites (positions.map (fun pos => (pos, repl))) buf := by
  simp [applyPositions, applyWrites, List.foldl_map]

theorem applyWrites_append (ws₁ ws₂ : List (Nat × List Nat)) (buf : List Nat) :
    applyWrites (ws₁ ++ ws₂) buf = applyWrites ws₂ (applyWrites ws₁ buf) := by
  simp [applyWrites, List.foldl_append]

theorem applyAll_eq_applyWrites (patches : List Patch) :
    ∀ (results : List PatchResult) (buffer : List Nat),
      applyAll buffer patches results = applyWrites (writesPlan patches results) buffer := by
  induction patches with
  | nil => intro results buffer; rfl
  | cons p t ih =>
    intro results buffer
    rw [applyAll_cons, writesPlan_cons, applyWrites_append, ih]
    cases hf : results.find? (fun r => r.name == p.name) with
    | none => rfl
    | some r =>
      dsimp only
      rw [applyPositions_eq_applyWrites]

theorem writesPlan_eq_recordedWrites (buffer : List Nat) (patches0 : List Patch)
    (hnd : (patches0.map Patch.name).Nodup) :
    ∀ patches : List Patch, (∀ p ∈ patches, p ∈ patches0) →
      writesPlan patches (patches0.map (checkPatch buffer)) = recordedWrites buffer patches := by
  intro patches
  induction patches with
  | nil => intro _; rfl
  | cons p t ih =>
    intro hsub
    rw [writesPlan_cons, find?_checkPatch_of_nodup buffer patches0 p (hsub p (by simp)) hnd]
    dsimp only
    rw [checkPatch_positions, ih (fun x hx => hsub x (List.mem_cons_of_mem _ hx))]
    simp only [recordedWrites, List.flatMap_cons]

theorem occs_eq_map_span (buffer : List Nat) :
    ∀ patches : List Patch,
      (∀ p ∈ patches, p.replacement.length = p.pattern.length) →
      occs buffer patches = (recordedWrites buffer patches).map (fun w => (w.1, w.2.length)) := by
  intro patches
  induction patches with
  | nil => intro _; rfl
  | cons p t ih =>
    intro hlen
    simp only [occs, recordedWrites, List.flatMap_cons, List.map_append, List.map_map]
    rw [← occs, ← recordedWrites, ih (fun x hx => hlen x (List.mem_cons_of_mem _ hx))]
    have hp := hlen p (by simp)
    congr 1
    simp [Function.comp_def, hp]

theorem applyWrites_length : ∀ (ws : List (Nat × List Nat)) (buf : List Nat),
    (applyWrites ws buf).length = buf.length := by
  intro ws
  induction ws with
  | nil => intro buf; rfl
  | cons w t ih =>
    intro buf
    rw [show applyWrites (w :: t) buf = applyWrites t (writeAt buf w.1 w.2) from rfl, ih,
      writeAt_length]

theorem applyWrites_getElem?_untouched {i : Nat} :
    ∀ (ws : List (Nat × List Nat)) (buf : List Nat),
      (∀ w ∈ ws, i < w.1 ∨ w.1 + w.2.length ≤ i) →
      (applyWrites ws buf)[i]? = buf[i]? := by
  intro ws
  induction ws with
  | nil => intro buf _; rfl
  | cons w t ih =>
    intro buf hw
    rw [show applyWrites (w :: t) buf = applyWrites t (writeAt buf w.1 w.2) from rfl,
      ih (writeAt buf w.1 w.2) (fun x hx => hw x (List.mem_cons_of_mem _ hx))]
    rcases hw w (by simp) with h | h
    · exact writeAt_getElem?_lt _ h
    · exact writeAt_getElem?_ge h

theorem applyWrites_getElem?_covered {i : Nat} {w : Nat × List Nat}
    (ws₁ ws₂ : List (Nat × List Nat)) (buf : List Nat)
    (h1 : w.1 ≤ i) (h2 : i < w.1 + w.2.length) (h3 : w.1 + w.2.length ≤ buf.length)
    (huntouched : ∀ x ∈ ws₂, i < x.1 ∨ x.1 + x.2.length ≤ i) :
    (applyWrites (ws₁ ++ w :: ws₂) buf)[i]? = w.2[i - w.1]? := by
  rw [applyWrites_append,
    show applyWrites (w :: ws₂) (applyWrites ws₁ buf) =
      applyWrites ws₂ (writeAt (applyWrites ws₁ buf) w.1 w.2) from rfl,
    applyWrites_getElem?_untouched ws₂ _ huntouched]
  exact writeAt_getElem?_mid h1 h2 (by rw [applyWrites_length]; exact h3)

theorem FS.getFile_chmodExec (fs : FS) (p q : String) :
    (fs.chmodExec p).getFile q = fs.getFile q := rfl

theorem FS.getFile_setFile_self (fs : FS) (p : String) (c : List Nat) :
    (fs.setFile p c).getFile p = some c := by
  simp [FS.getFile, FS.setFile]

theorem find?_filter_key {p q : String} (h : p ≠ q) :
    ∀ l : List (String × List Nat),
      (l.filter (fun kv => !(kv.1 == p))).find? (fun kv => kv.1 == q)
        = l.find? (fun kv => kv.1 == q) := by
  intro l
  induction l with
  | nil => rfl
  | cons kv t ih =>
    by_cases hp : kv.1 = p
    · rw [List.filter_cons_of_neg (by simp [hp]), ih,
        List.find?_cons_of_neg _ (by simp [hp, h])]
    · rw [List.filter_cons_of_pos (by simp [hp])]
      by_cases hq : kv.1 = q
      · rw [List.find?_cons_of_pos _ (by simp [hq]), List.find?_cons_of_pos _ (by simp [hq])]
      · rw [List.find?_cons_of_neg _ (by simp [hq]), List.find?_cons_of_neg _ (by simp [hq]), ih]

theorem FS.getFile_setFile_ne (fs : FS) {p q : String} (h : p ≠ q) (c : List Nat) :
    (fs.setFile p c).getFile q = fs.getFile q := by
  simp only [FS.getFile, FS.setFile]
  rw [List.find?_cons_of_neg _ (by simp [h]), find?_filter_key h]

theorem patchDroid_write_case (fs : FS) (opts : PatchOptions)
    (hin : fs.hasFile opts.inputPath = true)
    (hdry : opts.dryRun = false)
    (hneeded : ((opts.patches.map (checkPatch ((fs.getFile opts.inputPath).getD []))).filter
        (fun r => decide (0 < r.found) && !r.alreadyPatched)) ≠ []) :
    patchDroid fs opts =
      (let finalOutputPath := opts.outputPath.getD (opts.inputPath ++ ".patched")
       let buffer := (fs.getFile opts.inputPath).getD []
       let results := opts.patches.map (checkPatch buffer)
       let fs1 :=
         if opts.backup && !(fs.hasFile (opts.inputPath ++ ".backup"))
         then fs.setFile (opts.inputPath ++ ".backup") buffer else fs
       let patchedBuffer := applyAll buffer opts.patches results
       let fs2 := (fs1.setFile finalOutputPath patchedBuffer).chmodExec finalOutputPath
       (Except.ok
          { success := opts.patches.all (fun p =>
              (findAllPositions ((fs2.getFile finalOutputPath).getD []) p.pattern).length == 0),
            dryRun := false, outputPath := some finalOutputPath, results := results,
            noPatchNeeded := false,
            patchedCount := countPatched opts.patches results }, fs2)) := by
  have hne : ((opts.patches.map (checkPatch ((fs.getFile opts.inputPath).getD []))).filter
      (fun r => decide (0 < r.found) && !r.alreadyPatched)).isEmpty = false :=
    List.isEmpty_eq_false.mpr hneeded
  simp only [patchDroid, hin, hdry, hne, Bool.not_true, Bool.false_eq_true, if_false]

theorem findAllPositions_sound {buffer pattern : List Nat} {pos : Nat}
    (hne : pattern ≠ []) (h : pos ∈ findAllPositions buffer pattern) :
    matchesAt buffer pattern pos = true ∧ pos + pattern.length ≤ buffer.length := by
  have hspec := (findAllPositionsAux_spec hne (buffer.length + 1) 0 (by omega)).1 pos h
  exact ⟨hspec.2, matchesAt_bound hne hspec.2⟩

theorem recordedWrites_mem {buffer : List Nat} {patches : List Patch} {w : Nat × List Nat}
    (hw : w ∈ recordedWrites buffer patches) :
    ∃ p ∈ patches, w.1 ∈ findAllPositions buffer p.pattern ∧ w.2 = p.replacement := by
  simp only [recordedWrites, List.mem_flatMap, List.mem_map] at hw
  obtain ⟨p, hp, pos, hpos, heq⟩ := hw
  subst heq
  exact ⟨p, hp, hpos, rfl⟩

theorem recordedWrites_bound {buffer : List Nat} {patches : List Patch}
    (hpat : ∀ p ∈ patches, p.pattern ≠ [] ∧ p.replacement.length = p.pattern.length) :
    ∀ w ∈ recordedWrites buffer patches, w.1 + w.2.length ≤ buffer.length := by
  intro w hw
  obtain ⟨p, hp, hpos, hrepl⟩ := recordedWrites_mem hw
  obtain ⟨hne, hlen⟩ := hpat p hp
  have hb := (findAllPositions_sound hne hpos).2
  rw [hrepl, hlen]
  exact hb

/-- C1 (amended): in live mode, for patches with pairwise-distinct names,
non-empty patterns, equal-length pattern/replacement pairs and pairwise
disjoint recorded occurrences, the written output file holds the apply step's
buffer, which has the input's length, carries the replacement bytes at every
recorded position of every patch, and is byte-for-byte identical to the input
outside the replaced spans. -/
theorem patchDroid_apply_replacements (fs : FS) (opts : PatchOptions) (buffer out : List Nat)
    (hbuf : fs.getFile opts.inputPath = some buffer)
    (hout : out = applyAll buffer opts.patches (opts.patches.map (checkPatch buffer)))
    (hdry : opts.dryRun = false)
    (hpat : ∀ p ∈ opts.patches, p.pattern ≠ [] ∧ p.replacement.length = p.pattern.length)
    (hnames : (opts.patches.map Patch.name).Nodup)
    (hdisj : List.Pairwise spanDisjoint (occs buffer opts.patches))
    (hneeded : ((opts.patches.map (checkPatch buffer)).filter
        (fun r => decide (0 < r.found) && !r.alreadyPatched)) ≠ []) :
    (patchDroid fs opts).2.getFile (opts.outputPath.getD (opts.inputPath ++ ".patched"))
        = some out ∧
    out.length = buffer.length ∧
    (∀ p ∈ opts.patches, ∀ pos ∈ findAllPositions buffer p.pattern,
        ∀ j, j < p.replacement.length → out[pos + j]? = p.replacement[j]?) ∧
    (∀ i, (∀ p ∈ opts.patches, ∀ pos ∈ findAllPositions buffer p.pattern,
        i < pos ∨ pos + p.pattern.length ≤ i) → out[i]? = buffer[i]?) := by
  have hin : fs.hasFile opts.inputPath = true := by simp [FS.hasFile, hbuf]
  have hbufD : (fs.getFile opts.inputPath).getD [] = buffer := by rw [hbuf]; rfl
  have hplan : writesPlan opts.patches (opts.patches.map (checkPatch buffer))
      = recordedWrites buffer opts.patches :=
    writesPlan_eq_recordedWrites buffer opts.patches hnames opts.patches (fun _ h => h)
  have hout' : out = applyWrites (recordedWrites buffer opts.patches) buffer := by
    rw [hout, applyAll_eq_applyWrites, hplan]
  have hspan : occs buffer opts.patches
      = (recordedWrites buffer opts.patches).map (fun w => (w.1, w.2.length)) :=
    occs_eq_map_span buffer opts.patches (fun p hp => (hpat p hp).2)
  have hdisj' : List.Pairwise (fun w x : Nat × List Nat =>
      spanDisjoint (w.1, w.2.length) (x.1, x.2.length)) (recordedWrites buffer opts.patches) := by
    rw [hspan] at hdisj
    exact List.pairwise_map.mp hdisj
  refine ⟨?_, ?_, ?_, ?_⟩
  · rw [patchDroid_write_case fs opts hin hdry (by rw [hbufD]; exact hneeded)]
    dsimp only
    rw [FS.getFile_chmodExec, FS.getFile_setFile_self, hbufD, ← hout]
  · rw [hout']
    exact applyWrites_length _ _
  · intro p hp pos hpos j hj
    obtain ⟨hne, hlen⟩ := hpat p hp
    have hw : ((pos, p.replacement) : Nat × List Nat) ∈ recordedWrites buffer opts.patches := by
      simp only [recordedWrites, List.mem_flatMap, List.mem_map]
      exact ⟨p, hp, pos, hpos, rfl⟩
    obtain ⟨ws₁, ws₂, hsplit⟩ := List.append_of_mem hw
    rw [hsplit] at hdisj'
    obtain ⟨-, hp2, -⟩ := List.pairwise_append.mp hdisj'
    have hpairs := (List.pairwise_cons.mp hp2).1
    have hposb : pos + p.pattern.length ≤ buffer.length := (findAllPositions_sound hne hpos).2
    have huntouched : ∀ x ∈ ws₂, pos + j < x.1 ∨ x.1 + x.2.length ≤ pos + j := by
      intro x hx
      rcases hpairs x hx with h | h
      · left
        dsimp only [spanDisjoint] at h
        omega
      · right
        dsimp only [spanDisjoint] at h
        omega
    have hcov := @applyWrites_getElem?_covered (pos + j) (pos, p.replacement) ws₁ ws₂ buffer
      (by dsimp; omega) (by dsimp; omega) (by dsimp; omega) huntouched
    rw [hout', hsplit]
    simpa using hcov
  · intro i hi
    rw [hout']
    apply applyWrites_getElem?_untouched
    intro w hw
    obtain ⟨p, hp, hpos, hrepl⟩ := recordedWrites_mem hw
    obtain ⟨hne, hlen⟩ := hpat p hp
    rcases hi p hp w.1 hpos with h | h
    · left
      exact h
    · right
      rw [hrepl, hlen]
      exact h

/-- C1 witness: the spec's concrete scenario, live mode.  Exactly the
positions 2 and 15 are found and the written output is the expected buffer,
which agrees with the replacement on the spans and the input elsewhere. -/
theorem patchDroid_apply_replacements_witness :
    findAllPositions exBuffer (strToBytes "isCustom:!0") = [2, 15] ∧
    strToBytes "xxisCustom:!1yyisCustom:!1zz"
      = applyAll exBuffer exOpts.patches (exOpts.patches.map (checkPatch exBuffer)) ∧
    ((patchDroid exFS exOpts).2.getFile (exOpts.outputPath.getD (exOpts.inputPath ++ ".patched"))
        = some (strToBytes "xxisCustom:!1yyisCustom:!1zz") ∧
      (strToBytes "xxisCustom:!1yyisCustom:!1zz").length = exBuffer.length ∧
      (∀ p ∈ exOpts.patches, ∀ pos ∈ findAllPositions exBuffer p.pattern,
          ∀ j, j < p.replacement.length →
            (strToBytes "xxisCustom:!1yyisCustom:!1zz")[pos + j]? = p.replacement[j]?) ∧
      (∀ i, (∀ p ∈ exOpts.patches, ∀ pos ∈ findAllPositions exBuffer p.pattern,
          i < pos ∨ pos + p.pattern.length ≤ i) →
            (strToBytes "xxisCustom:!1yyisCustom:!1zz")[i]? = exBuffer[i]?)) :=
  ⟨by decide, by decide,
    patchDroid_apply_replacements exFS exOpts exBuffer
      (strToBytes "xxisCustom:!1yyisCustom:!1zz") (by decide) (by decide) (by decide)
      (by decide) (by decide) (by decide) (by decide)⟩

/-- C1 counterexample: two equal-length patches with pairwise disjoint
occurrences but a shared name.  The apply loop's find-by-name lookup resolves
both patches to the first result, so the second patch's recorded position 2
does not receive its replacement bytes in the written output. -/
theorem patchDroid_apply_replacements_cex :
    (∀ p ∈ dupOpts.patches, p.pattern ≠ [] ∧ p.replacement.length = p.pattern.length) ∧
    List.Pairwise spanDisjoint (occs [1, 2, 3, 4] dupOpts.patches) ∧
    dupFS.getFile "in" = some [1, 2, 3, 4] ∧
    dupOpts.dryRun = false ∧
    dupPatchB ∈ dupOpts.patches ∧
    2 ∈ findAllPositions [1, 2, 3, 4] dupPatchB.pattern ∧
    0 < dupPatchB.replacement.length ∧
    (patchDroid dupFS dupOpts).2.getFile "in.patched" = some [7, 8, 3, 4] ∧
    ¬(([7, 8, 3, 4] : List Nat)[2 + 0]? = dupPatchB.replacement[0]?) := by decide

/-- C4: for every buffer and non-empty pattern, the scan returns offsets of
exact byte-for-byte matches, consecutive offsets differ by at least the
pattern length (the cursor resumes at p + len(pattern)), the offsets are
strictly increasing, and every match position falls inside one of the
returned non-overlapping occurrences. -/
theorem findAllPositions_correct (buffer pattern : List Nat) (hne : pattern ≠ []) :
    (∀ p ∈ findAllPositions buffer pattern, matchesAt buffer pattern p = true) ∧
    List.Chain' (fun a b => a + pattern.length ≤ b) (findAllPositions buffer pattern) ∧
    List.Chain' (fun a b : Nat => a < b) (findAllPositions buffer pattern) ∧
    (∀ q, matchesAt buffer pattern q = true →
        ∃ p ∈ findAllPositions buffer pattern, p ≤ q ∧ q < p + pattern.length) := by
  obtain ⟨ha, hb, hc⟩ := @findAllPositionsAux_spec buffer pattern hne (buffer.length + 1) 0
    (by omega)
  have hplen : 0 < pattern.length := List.length_pos.mpr hne
  exact ⟨fun p hp => (ha p hp).2, hb, hb.imp (fun a b h => by omega),
    fun q hq => hc q (Nat.zero_le q) hq⟩

/-- C4 witness: pattern `aa` in buffer `aaaa`: matches at 0, 1, 2 exist, but
the scan returns the non-overlapping occurrences. -/
theorem findAllPositions_correct_witness :
    ([97, 97] : List Nat) ≠ [] ∧
    ((∀ p ∈ findAllPositions [97, 97, 97, 97] [97, 97],
        matchesAt [97, 97, 97, 97] [97, 97] p = true) ∧
      List.Chain' (fun a b => a + ([97, 97] : List Nat).length ≤ b)
        (findAllPositions [97, 97, 97, 97] [97, 97]) ∧
      List.Chain' (fun a b : Nat => a < b) (findAllPositions [97, 97, 97, 97] [97, 97]) ∧
      (∀ q, matchesAt [97, 97, 97, 97] [97, 97] q = true →
          ∃ p ∈ findAllPositions [97, 97, 97, 97] [97, 97],
            p ≤ q ∧ q < p + ([97, 97] : List Nat).length)) :=
  ⟨by decide, findAllPositions_correct [97, 97, 97, 97] [97, 97] (by decide)⟩

/-- C10: for a non-empty pattern the scan loop terminates: every fuel bound of
at least `buffer.length + 1` iterations yields the same finite list as the
model's canonical fuel, because each iteration advances the cursor by
`pattern.length ≥ 1`. -/
theorem findAllPositions_terminates (buffer pattern : List Nat) (hne : pattern ≠ [])
    (fuel : Nat) (hfuel : buffer.length + 1 ≤ fuel) :
    findAllPositionsAux buffer pattern fuel 0 = findAllPositions buffer pattern :=
  findAllPositionsAux_fuel_indep hne fuel (buffer.length + 1) 0 (by omega) (by omega)

/-- C10 witness: fuel 9 on a 3-byte buffer with pattern `[1]`. -/
theorem findAllPositions_terminates_witness :
    (([1] : List Nat) ≠ [] ∧ ([1, 1, 0] : List Nat).length + 1 ≤ 9) ∧
    findAllPositionsAux [1, 1, 0] [1] 9 0 = findAllPositions [1, 1, 0] [1] :=
  ⟨⟨by decide, by decide⟩, findAllPositions_terminates [1, 1, 0] [1] (by decide) 9 (by decide)⟩

theorem indexOfFrom_zero_of_findAll_nil {buffer x : List Nat}
    (h : findAllPositions buffer x = []) : indexOfFrom buffer x 0 = none := by
  have h' : (match indexOfFrom buffer x 0 with
      | none => ([] : List Nat)
      | some p => p :: findAllPositionsAux buffer x buffer.length (p + x.length)) = [] := h
  cases hf : indexOfFrom buffer x 0 with
  | none => rfl
  | some p =>
    rw [hf] at h'
    simp at h'

/-- C2: in live mode, once the output file has been written, the aggregate
result is successful iff the re-read output contains zero occurrences of
every patch's pattern; the output file is on disk either way. -/
theorem patchDroid_verification (fs : FS) (opts : PatchOptions) (buffer : List Nat)
    (hbuf : fs.getFile opts.inputPath = some buffer)
    (hdry : opts.dryRun = false)
    (hneeded : ((opts.patches.map (checkPatch buffer)).filter
        (fun r => decide (0 < r.found) && !r.alreadyPatched)) ≠ []) :
    ∃ res : PatchRunResult,
      (patchDroid fs opts).1 = Except.ok res ∧
      (patchDroid fs opts).2.getFile (opts.outputPath.getD (opts.inputPath ++ ".patched"))
        = some (applyAll buffer opts.patches (opts.patches.map (checkPatch buffer))) ∧
      (res.success = true ↔ ∀ p ∈ opts.patches,
        findAllPositions (applyAll buffer opts.patches (opts.patches.map (checkPatch buffer)))
          p.pattern = []) := by
  have hin : fs.hasFile opts.inputPath = true := by simp [FS.hasFile, hbuf]
  have hbufD : (fs.getFile opts.inputPath).getD [] = buffer := by rw [hbuf]; rfl
  rw [patchDroid_write_case fs opts hin hdry (by rw [hbufD]; exact hneeded)]
  dsimp only
  rw [hbufD, FS.getFile_chmodExec, FS.getFile_setFile_self]
  refine ⟨_, rfl, rfl, ?_⟩
  dsimp only [Option.getD]
  rw [List.all_eq_true]
  constructor
  · intro hall p hp
    have := hall p hp
    simpa [List.length_eq_zero] using this
  · intro h p hp
    simp [h p hp]

/-- C2 witness: the concrete scenario run writes the expected output and the
verification pass reports success because no pattern occurrence remains. -/
theorem patchDroid_verification_witness :
    exFS.getFile exOpts.inputPath = some exBuffer ∧
    exOpts.dryRun = false ∧
    ((exOpts.patches.map (checkPatch exBuffer)).filter
        (fun r => decide (0 < r.found) && !r.alreadyPatched)) ≠ [] ∧
    (∃ res : PatchRunResult,
      (patchDroid exFS exOpts).1 = Except.ok res ∧
      (patchDroid exFS exOpts).2.getFile
          (exOpts.outputPath.getD (exOpts.inputPath ++ ".patched"))
        = some (applyAll exBuffer exOpts.patches (exOpts.patches.map (checkPatch exBuffer))) ∧
      (res.success = true ↔ ∀ p ∈ exOpts.patches,
        findAllPositions
          (applyAll exBuffer exOpts.patches (exOpts.patches.map (checkPatch exBuffer)))
          p.pattern = [])) :=
  ⟨by decide, by decide, by decide,
    patchDroid_verification exFS exOpts exBuffer (by decide) (by decide) (by decide)⟩

/-- C3: for a patch whose pattern does not occur: if the replacement occurs
the result is alreadyPatched and successful; if the replacement does not
occur either, the result is marked failed and not already-patched; and the
engine returns a result object (no exception) whenever the input exists. -/
theorem checkPatch_not_found (buffer : List Nat) (patch : Patch)
    (h : findAllPositions buffer patch.pattern = []) :
    (findAllPositions buffer patch.replacement ≠ [] →
      (checkPatch buffer patch).alreadyPatched = true ∧
        (checkPatch buffer patch).success = true) ∧
    (findAllPositions buffer patch.replacement = [] →
      (checkPatch buffer patch).success = false ∧
        (checkPatch buffer patch).alreadyPatched = false) ∧
    (∀ (fs : FS) (opts : PatchOptions), fs.hasFile opts.inputPath = true →
      ∃ res, (patchDroid fs opts).1 = Except.ok res) := by
  refine ⟨?_, ?_, ?_⟩
  · intro hrep
    have hlen : (findAllPositions buffer patch.replacement).length > 0 := by
      cases hx : findAllPositions buffer patch.replacement with
      | nil => exact absurd hx hrep
      | cons a t => simp
    simp only [checkPatch, h, List.length_nil, if_pos rfl]
    rw [if_pos hlen]
    exact ⟨rfl, rfl⟩
  · intro hrep
    have hlen : ¬((findAllPositions buffer patch.replacement).length > 0) := by
      rw [hrep]
      simp
    simp only [checkPatch, h, List.length_nil, if_pos rfl]
    rw [if_neg hlen]
    refine ⟨rfl, ?_⟩
    have := indexOfFrom_zero_of_findAll_nil hrep
    simp [this]
  · intro fs opts hin
    simp only [patchDroid, hin, Bool.not_true, Bool.false_eq_true, if_false]
    split
    · exact ⟨_, rfl⟩
    · split
      · split
        · exact ⟨_, rfl⟩
        · exact ⟨_, rfl⟩
      · exact ⟨_, rfl⟩

/-- C3 witness: the scenario patch against the buffer `[0]`, which contains
neither the pattern nor the replacement. -/
theorem checkPatch_not_found_witness :
    findAllPositions [0] exPatch.pattern = [] ∧
    ((findAllPositions [0] exPatch.replacement ≠ [] →
      (checkPatch [0] exPatch).alreadyPatched = true ∧
        (checkPatch [0] exPatch).success = true) ∧
    (findAllPositions [0] exPatch.replacement = [] →
      (checkPatch [0] exPatch).success = false ∧
        (checkPatch [0] exPatch).alreadyPatched = false) ∧
    (∀ (fs : FS) (opts : PatchOptions), fs.hasFile opts.inputPath = true →
      ∃ res, (patchDroid fs opts).1 = Except.ok res)) :=
  ⟨by decide, checkPatch_not_found [0] exPatch (by decide)⟩

/-- C5: a dry run returns the filesystem unchanged (no file created, modified
or deleted, no permission change), and when the input exists it returns a
result with dryRun = true whose success is the conjunction of
success-or-alreadyPatched over all per-patch results. -/
theorem patchDroid_dryRun (fs : FS) (opts : PatchOptions) (hdry : opts.dryRun = true) :
    (patchDroid fs opts).2 = fs ∧
    (∀ buffer, fs.getFile opts.inputPath = some buffer →
      (patchDroid fs opts).1 = Except.ok
        { success := (opts.patches.map (checkPatch buffer)).all
            (fun r => r.success || r.alreadyPatched),
          dryRun := true, outputPath := none,
          results := opts.patches.map (checkPatch buffer),
          noPatchNeeded := false, patchedCount := 0 } ∧
      ((opts.patches.map (checkPatch buffer)).all (fun r => r.success || r.alreadyPatched) = true
        ↔ ∀ r ∈ opts.patches.map (checkPatch buffer),
            r.success = true ∨ r.alreadyPatched = true)) := by
  by_cases hin : fs.hasFile opts.inputPath = true
  · constructor
    · simp only [patchDroid, hin, hdry, Bool.not_true, Bool.false_eq_true, if_false, if_true]
    · intro buffer hbuf
      have hbufD : (fs.getFile opts.inputPath).getD [] = buffer := by rw [hbuf]; rfl
      constructor
      · simp only [patchDroid, hin, hdry, Bool.not_true, Bool.false_eq_true, if_false, if_true,
          hbufD]
      · rw [List.all_eq_true]
        constructor
        · intro hall r hr
          have := hall r hr
          simpa using this
        · intro hall r hr
          have := hall r hr
          simpa using this
  · have hfalse : fs.hasFile opts.inputPath = false := by
      simpa using hin
    constructor
    · simp [patchDroid, hfalse]
    · intro buffer hbuf
      have : fs.hasFile opts.inputPath = true := by simp [FS.hasFile, hbuf]
      exact absurd this hin

/-- C5 witness: a dry run over the scenario filesystem. -/
theorem patchDroid_dryRun_witness :
    exDryOpts.dryRun = true ∧
    ((patchDroid exFS exDryOpts).2 = exFS ∧
    (∀ buffer, exFS.getFile exDryOpts.inputPath = some buffer →
      (patchDroid exFS exDryOpts).1 = Except.ok
        { success := (exDryOpts.patches.map (checkPatch buffer)).all
            (fun r => r.success || r.alreadyPatched),
          dryRun := true, outputPath := none,
          results := exDryOpts.patches.map (checkPatch buffer),
          noPatchNeeded := false, patchedCount := 0 } ∧
      ((exDryOpts.patches.map (checkPatch buffer)).all
          (fun r => r.success || r.alreadyPatched) = true
        ↔ ∀ r ∈ exDryOpts.patches.map (checkPatch buffer),
            r.success = true ∨ r.alreadyPatched = true))) :=
  ⟨by decide, patchDroid_dryRun exFS exDryOpts (by decide)⟩

/-- C6 (amended): in live mode with backup requested and at least one patch
with unapplied occurrences, when no file exists at `<inputPath>.backup` the
input is copied there verbatim before the output is written, and an existing
backup is never overwritten — provided the chosen output path is not the
backup path itself. -/
theorem patchDroid_backup (fs : FS) (opts : PatchOptions) (buffer : List Nat)
    (hbuf : fs.getFile opts.inputPath = some buffer)
    (hdry : opts.dryRun = false)
    (hbk : opts.backup = true)
    (hneeded : ((opts.patches.map (checkPatch buffer)).filter
        (fun r => decide (0 < r.found) && !r.alreadyPatched)) ≠ [])
    (houtp : opts.outputPath.getD (opts.inputPath ++ ".patched")
        ≠ opts.inputPath ++ ".backup") :
    (fs.hasFile (opts.inputPath ++ ".backup") = false →
      (patchDroid fs opts).2.getFile (opts.inputPath ++ ".backup") = some buffer) ∧
    (∀ c, fs.getFile (opts.inputPath ++ ".backup") = some c →
      (patchDroid fs opts).2.getFile (opts.inputPath ++ ".backup") = some c) := by
  have hin : fs.hasFile opts.inputPath = true := by simp [FS.hasFile, hbuf]
  have hbufD : (fs.getFile opts.inputPath).getD [] = buffer := by rw [hbuf]; rfl
  rw [patchDroid_write_case fs opts hin hdry (by rw [hbufD]; exact hneeded)]
  dsimp only
  rw [FS.getFile_chmodExec, FS.getFile_setFile_ne _ houtp]
  constructor
  · intro hnone
    rw [hbk, hnone, if_pos (by simp), FS.getFile_setFile_self, hbufD]
  · intro c hc
    have hsome : fs.hasFile (opts.inputPath ++ ".backup") = true := by
      simp [FS.hasFile, hc]
    rw [hbk, hsome, if_neg (by simp)]
    exact hc

/-- C6 witness: the scenario run with no pre-existing backup: the backup file
appears at `droid.backup` with the original bytes. -/
theorem patchDroid_backup_witness :
    exFS.getFile exOpts.inputPath = some exBuffer ∧
    exOpts.dryRun = false ∧
    exOpts.backup = true ∧
    exOpts.outputPath.getD (exOpts.inputPath ++ ".patched") ≠ exOpts.inputPath ++ ".backup" ∧
    ((exFS.hasFile (exOpts.inputPath ++ ".backup") = false →
      (patchDroid exFS exOpts).2.getFile (exOpts.inputPath ++ ".backup") = some exBuffer) ∧
    (∀ c, exFS.getFile (exOpts.inputPath ++ ".backup") = some c →
      (patchDroid exFS exOpts).2.getFile (exOpts.inputPath ++ ".backup") = some c)) :=
  ⟨by decide, by decide, by decide, by decide,
    patchDroid_backup exFS exOpts exBuffer (by decide) (by decide) (by decide) (by decide)
      (by decide)⟩

/-- C6 counterexample: with the output path aimed at `<inputPath>.backup`,
the write step overwrites the existing backup `[9]` with the patched bytes
`[2]`, so an existing backup is not always preserved. -/
theorem patchDroid_backup_cex :
    bkOpts.backup = true ∧
    bkOpts.dryRun = false ∧
    bkFS.getFile "in.backup" = some [9] ∧
    (patchDroid bkFS bkOpts).2.getFile "in.backup" = some [2] ∧
    ¬((patchDroid bkFS bkOpts).2.getFile "in.backup" = some [9]) := by decide

/-- C7: when the input path names no existing file, the engine throws the
`Binary not found` error before scanning anything and leaves the filesystem
untouched; no result object is produced. -/
theorem patchDroid_missing_input (fs : FS) (opts : PatchOptions)
    (h : fs.hasFile opts.inputPath = false) :
    patchDroid fs opts = (Except.error ("Binary not found: " ++ opts.inputPath), fs) := by
  simp [patchDroid, h]

/-- C7 witness: the empty filesystem. -/
theorem patchDroid_missing_input_witness :
    emptyFS.hasFile exOpts.inputPath = false ∧
    patchDroid emptyFS exOpts
      = (Except.error ("Binary not found: " ++ exOpts.inputPath), emptyFS) :=
  ⟨by decide, patchDroid_missing_input emptyFS exOpts (by decide)⟩

/-- C8: in live mode, when no patch has unapplied occurrences, the filesystem
is untouched (no output, no backup); if all results are already-patched the
run succeeds with noPatchNeeded = true and outputPath = inputPath, otherwise
it reports failure. -/
theorem patchDroid_noPatchNeeded (fs : FS) (opts : PatchOptions) (buffer : List Nat)
    (hbuf : fs.getFile opts.inputPath = some buffer)
    (hdry : opts.dryRun = false)
    (hnone : ((opts.patches.map (checkPatch buffer)).filter
        (fun r => decide (0 < r.found) && !r.alreadyPatched)) = []) :
    (patchDroid fs opts).2 = fs ∧
    ((opts.patches.map (checkPatch buffer)).all (fun r => r.alreadyPatched) = true →
      (patchDroid fs opts).1 = Except.ok
        { success := true, dryRun := false, outputPath := some opts.inputPath,
          results := opts.patches.map (checkPatch buffer),
          noPatchNeeded := true, patchedCount := 0 }) ∧
    ((opts.patches.map (checkPatch buffer)).all (fun r => r.alreadyPatched) = false →
      (patchDroid fs opts).1 = Except.ok
        { success := false, dryRun := false, outputPath := none,
          results := opts.patches.map (checkPatch buffer),
          noPatchNeeded := false, patchedCount := 0 }) := by
  have hin : fs.hasFile opts.inputPath = true := by simp [FS.hasFile, hbuf]
  have hbufD : (fs.getFile opts.inputPath).getD [] = buffer := by rw [hbuf]; rfl
  have hempty : ((opts.patches.map (checkPatch buffer)).filter
      (fun r => decide (0 < r.found) && !r.alreadyPatched)).isEmpty = true :=
    List.isEmpty_iff.mpr hnone
  simp only [patchDroid, hin, hdry, Bool.not_true, Bool.false_eq_true, if_false]
  rw [hbufD, hempty, if_pos rfl]
  cases hall : (opts.patches.map (checkPatch buffer)).all (fun r => r.alreadyPatched) with
  | true =>
    rw [if_pos rfl]
    refine ⟨rfl, fun _ => rfl, fun hfalse => ?_⟩
    cases hfalse
  | false =>
    rw [if_neg (by simp)]
    refine ⟨rfl, fun htrue => ?_, fun _ => rfl⟩
    cases htrue

/-- C8 witness: the already-patched scenario buffer: nothing to apply, all
results already-patched, success with noPatchNeeded. -/
theorem patchDroid_noPatchNeeded_witness :
    exPatchedFS.getFile exOpts.inputPath = some (strToBytes "xxisCustom:!1yyisCustom:!1zz") ∧
    exOpts.dryRun = false ∧
    ((exOpts.patches.map (checkPatch (strToBytes "xxisCustom:!1yyisCustom:!1zz"))).filter
        (fun r => decide (0 < r.found) && !r.alreadyPatched)) = [] ∧
    ((patchDroid exPatchedFS exOpts).2 = exPatchedFS ∧
    ((exOpts.patches.map (checkPatch (strToBytes "xxisCustom:!1yyisCustom:!1zz"))).all
        (fun r => r.alreadyPatched) = true →
      (patchDroid exPatchedFS exOpts).1 = Except.ok
        { success := true, dryRun := false, outputPath := some exOpts.inputPath,
          results := exOpts.patches.map
            (checkPatch (strToBytes "xxisCustom:!1yyisCustom:!1zz")),
          noPatchNeeded := true, patchedCount := 0 }) ∧
    ((exOpts.patches.map (checkPatch (strToBytes "xxisCustom:!1yyisCustom:!1zz"))).all
        (fun r => r.alreadyPatched) = false →
      (patchDroid exPatchedFS exOpts).1 = Except.ok
        { success := false, dryRun := false, outputPath := none,
          results := exOpts.patches.map
            (checkPatch (strToBytes "xxisCustom:!1yyisCustom:!1zz")),
          noPatchNeeded := false, patchedCount := 0 })) :=
  ⟨by decide, by decide, by decide,
    patchDroid_noPatchNeeded exPatchedFS exOpts (strToBytes "xxisCustom:!1yyisCustom:!1zz")
      (by decide) (by decide) (by decide)⟩

/-- C9 (amended): the written output always has exactly the input's length,
also for patches whose replacement length differs from the pattern length:
`Buffer.copy` writes into the fixed-size buffer copy and never resizes it. -/
theorem patchDroid_length_preserved (fs : FS) (opts : PatchOptions) (buffer : List Nat)
    (hbuf : fs.getFile opts.inputPath = some buffer)
    (hdry : opts.dryRun = false)
    (hneeded : ((opts.patches.map (checkPatch buffer)).filter
        (fun r => decide (0 < r.found) && !r.alreadyPatched)) ≠ []) :
    ∃ out, (patchDroid fs opts).2.getFile (opts.outputPath.getD (opts.inputPath ++ ".patched"))
        = some out ∧ out.length = buffer.length := by
  have hin : fs.hasFile opts.inputPath = true := by simp [FS.hasFile, hbuf]
  have hbufD : (fs.getFile opts.inputPath).getD [] = buffer := by rw [hbuf]; rfl
  rw [patchDroid_write_case fs opts hin hdry (by rw [hbufD]; exact hneeded)]
  dsimp only
  rw [hbufD, FS.getFile_chmodExec, FS.getFile_setFile_self]
  refine ⟨_, rfl, ?_⟩
  rw [applyAll_eq_applyWrites]
  exact applyWrites_length _ _

/-- C9 witness: the unequal-length patch (1-byte pattern, 2-byte replacement)
still produces an output of the input's length. -/
theorem patchDroid_length_preserved_witness :
    unevenFS.getFile unevenOpts.inputPath = some [1, 2, 3] ∧
    unevenOpts.dryRun = false ∧
    ((unevenOpts.patches.map (checkPatch [1, 2, 3])).filter
        (fun r => decide (0 < r.found) && !r.alreadyPatched)) ≠ [] ∧
    (∃ out, (patchDroid unevenFS unevenOpts).2.getFile
        (unevenOpts.outputPath.getD (unevenOpts.inputPath ++ ".patched"))
        = some out ∧ out.length = ([1, 2, 3] : List Nat).length) :=
  ⟨by decide, by decide, by decide,
    patchDroid_length_preserved unevenFS unevenOpts [1, 2, 3] (by decide) (by decide)
      (by decide)⟩

/-- C9 counterexample: pattern `[2]` (length 1), replacement `[9, 9]`
(length 2): the written output `[1, 9, 9]` has length 3, equal to the input
`[1, 2, 3]`'s length — the file size does not change. -/
theorem patchDroid_length_cex :
    unevenPatch.pattern.length ≠ unevenPatch.replacement.length ∧
    unevenFS.getFile "in" = some [1, 2, 3] ∧
    unevenOpts.dryRun = false ∧
    (patchDroid unevenFS unevenOpts).2.getFile "in.patched" = some [1, 9, 9] ∧
    ¬(([1, 9, 9] : List Nat).length ≠ ([1, 2, 3] : List Nat).length) := by decide
